import Mathlib

/-!
Verification of `aider/helpers/file_searcher.py` and of the skills manager of
`aider-ce` (the manager itself is absent from the snapshot; it is modelled
from the spec and pinned by `tests/basic/test_skills.py`).

Conventions of the shallow embedding:
* Paths are strings; `Path(a) / b` is string concatenation with a slash.
* The filesystem is an abstract structure `FS`: a home directory, a current
  working directory, a resolver modelling `Path(s).expanduser().resolve()`
  (where `none` models a raised `OSError`), and an existence test.
* An optional string argument that the Python code only ever consults through
  truthiness (`if git_root:` and the like) is embedded as `Option String`,
  with `none` standing for the falsy values (`None` and the empty string) —
  every access in the source is truthiness-guarded, so this quotient is exact.
* Raised exceptions are `Except` errors; returned `None` is `Option.none`.
-/

/-- Abstract filesystem seen by `file_searcher.py`: `resolve s` models
`Path(s).expanduser().resolve()` with `none` for a raised `OSError`;
`pathExists s` models `Path(s).exists()`. -/
structure FS where
  home : String
  cwd : String
  resolve : String → Option String
  pathExists : String → Bool

/-- `Path(a) / b` at the string level. -/
def pjoin (a b : String) : String := a ++ "/" ++ b

/-- Errors raised by `file_searcher.py`: `ValueError(msg)` and a propagated
`OSError`. -/
inductive PyError where
  | valueError (msg : String)
  | osError
deriving DecidableEq

/-! ## generate_search_path_list (file_searcher.py lines 12-58) -/

/-- The candidate list built by `generate_search_path_list` before resolution,
in base order: `Path.home() / default_file`; `Path(git_root) / default_file`
when `git_root` is truthy; the bare `default_file`; `command_line_file` when
truthy. -/
def searchCandidates (fs : FS) (default_file : String)
    (git_root command_line_file : Option String) : List String :=
  [pjoin fs.home default_file]
    ++ (match git_root with
        | some g => [pjoin g default_file]
        | none => [])
    ++ [default_file]
    ++ (match command_line_file with
        | some c => [c]
        | none => [])

/-- The loop `uniq = []; for fn in files: if fn not in uniq: uniq.append(fn)`
(also the effect of `list(dict.fromkeys(files))`): deduplication keeping the
first occurrence, with `uniq` the accumulator. -/
def pyUniq (uniq : List String) : List String → List String
  | [] => uniq
  | fn :: rest => if fn ∈ uniq then pyUniq uniq rest else pyUniq (uniq ++ [fn]) rest

/-- `generate_search_path_list(default_file, git_root, command_line_file)`:
build the candidates, resolve each (a candidate whose resolution raises
`OSError` is dropped), reverse, deduplicate keeping the first occurrence,
reverse back, convert to strings (identity here), and deduplicate keeping the
first occurrence once more. -/
def generate_search_path_list (fs : FS) (default_file : String)
    (git_root command_line_file : Option String) : List String :=
  let files := searchCandidates fs default_file git_root command_line_file
  let resolved_files := files.filterMap fs.resolve
  let files1 := resolved_files.reverse
  let uniq := pyUniq [] files1
  let files2 := uniq.reverse
  pyUniq [] files2

/-- Spec-side rendering of the deduplication rule: when a path occurs again
later in the list, the earlier occurrence is dropped, so the occurrence
retained is the last (highest override priority) one, in place. -/
def dedupKeepLast : List String → List String
  | [] => []
  | x :: xs => if x ∈ xs then dedupKeepLast xs else x :: dedupKeepLast xs

/-! ### Lemmas about the double-reverse deduplication -/

/-- Structural form of first-occurrence dedup with a seen-set. -/
def dedupF (seen : List String) : List String → List String
  | [] => []
  | x :: xs => if x ∈ seen then dedupF seen xs else x :: dedupF (x :: seen) xs

theorem dedupF_congr {s t : List String} (l : List String)
    (h : ∀ a, a ∈ s ↔ a ∈ t) : dedupF s l = dedupF t l := by
  induction l generalizing s t with
  | nil => rfl
  | cons x xs ih =>
    by_cases hx : x ∈ s
    · simp only [dedupF, if_pos hx, if_pos ((h x).mp hx)]
      exact ih h
    · have hxt : x ∉ t := fun hmem => hx ((h x).mpr hmem)
      simp only [dedupF, if_neg hx, if_neg hxt]
      have h2 : ∀ a, a ∈ x :: s ↔ a ∈ x :: t := by
        intro a; simp [List.mem_cons, h a]
      rw [ih h2]

theorem pyUniq_eq_append (l : List String) :
    ∀ acc, pyUniq acc l = acc ++ dedupF acc l := by
  induction l with
  | nil => intro acc; simp [pyUniq, dedupF]
  | cons fn rest ih =>
    intro acc
    by_cases h : fn ∈ acc
    · simp [pyUniq, dedupF, h, ih]
    · simp only [pyUniq, dedupF, if_neg h]
      rw [ih]
      have hmem : ∀ a, a ∈ acc ++ [fn] ↔ a ∈ fn :: acc := by
        intro a; simp [List.mem_append, List.mem_cons, or_comm]
      rw [dedupF_congr rest hmem]
      simp

theorem dedupF_append_single (l : List String) :
    ∀ (s : List String) (a : String),
      dedupF s (l ++ [a]) = dedupF s l ++ (if a ∈ s ∨ a ∈ l then [] else [a]) := by
  induction l with
  | nil =>
    intro s a
    by_cases h : a ∈ s <;> simp [dedupF, h]
  | cons x xs ih =>
    intro s a
    rw [List.cons_append]
    by_cases hx : x ∈ s
    · have e1 : dedupF s (x :: (xs ++ [a])) = dedupF s (xs ++ [a]) := by
        simp only [dedupF, if_pos hx]
      have e2 : dedupF s (x :: xs) = dedupF s xs := by
        simp only [dedupF, if_pos hx]
      rw [e1, e2, ih s a]
      congr 1
      have hiff : (a ∈ s ∨ a ∈ xs) ↔ (a ∈ s ∨ a ∈ x :: xs) := by
        constructor
        · rintro (h | h)
          · exact Or.inl h
          · exact Or.inr (List.mem_cons_of_mem x h)
        · rintro (h | h)
          · exact Or.inl h
          · rcases List.mem_cons.mp h with rfl | h2
            · exact Or.inl hx
            · exact Or.inr h2
      rw [if_congr hiff rfl rfl]
    · have e1 : dedupF s (x :: (xs ++ [a]))
          = x :: dedupF (x :: s) (xs ++ [a]) := by
        simp only [dedupF, if_neg hx]
      have e2 : dedupF s (x :: xs) = x :: dedupF (x :: s) xs := by
        simp only [dedupF, if_neg hx]
      rw [e1, e2, ih (x :: s) a]
      have hiff : (a ∈ x :: s ∨ a ∈ xs) ↔ (a ∈ s ∨ a ∈ x :: xs) := by
        simp only [List.mem_cons]; tauto
      rw [if_congr hiff rfl rfl]
      simp

theorem dedupF_reverse_eq (l : List String) :
    (dedupF [] l.reverse).reverse = l.dedup := by
  induction l with
  | nil => rfl
  | cons x xs ih =>
    rw [List.reverse_cons, dedupF_append_single]
    by_cases h : x ∈ xs
    · simp only [List.mem_reverse, h, or_true, if_pos, List.append_nil]
      rw [ih, List.dedup_cons_of_mem h]
    · simp only [List.not_mem_nil, List.mem_reverse, h, or_self, if_neg,
        not_false_iff, List.reverse_append, List.reverse_cons, List.reverse_nil,
        List.nil_append, List.singleton_append]
      rw [ih, List.dedup_cons_of_not_mem h]

theorem dedupF_eq_self_of_nodup (l : List String) :
    ∀ s, l.Nodup → (∀ a ∈ l, a ∉ s) → dedupF s l = l := by
  induction l with
  | nil => intro s _ _; rfl
  | cons x xs ih =>
    intro s hnd hdisj
    have hx : x ∉ s := hdisj x (List.mem_cons_self x xs)
    simp only [dedupF, if_neg hx]
    congr 1
    apply ih
    · exact hnd.of_cons
    · intro a ha
      simp only [List.mem_cons]
      rintro (rfl | hs)
      · exact (List.nodup_cons.mp hnd).1 ha
      · exact hdisj a (List.mem_cons_of_mem x ha) hs

theorem dedupKeepLast_eq_dedup (l : List String) : dedupKeepLast l = l.dedup := by
  induction l with
  | nil => rfl
  | cons x xs ih =>
    by_cases h : x ∈ xs
    · simp [dedupKeepLast, h, List.dedup_cons_of_mem h, ih]
    · simp [dedupKeepLast, h, List.dedup_cons_of_not_mem h, ih]

/-- The whole pipeline equals keep-the-last-occurrence deduplication of the
resolved candidate list. -/
theorem generate_eq_dedup (fs : FS) (default_file : String)
    (git_root command_line_file : Option String) :
    generate_search_path_list fs default_file git_root command_line_file
      = ((searchCandidates fs default_file git_root command_line_file).filterMap
          fs.resolve).dedup := by
  unfold generate_search_path_list
  simp only
  rw [pyUniq_eq_append, List.nil_append, pyUniq_eq_append, List.nil_append,
    dedupF_reverse_eq]
  exact dedupF_eq_self_of_nodup _ _ (List.nodup_dedup _) (by simp)

/-- C1: `generate_search_path_list` returns resolved paths without duplicates;
the surviving entries stand in ascending base order (a sublist of the resolved
candidate list, whose construction puts the home candidate first and the
command-line candidate last); every resolved candidate is represented; and the
output is exactly the keep-the-last-occurrence deduplication, so when two
candidates resolve to the same path the occurrence later in the base order is
the one retained. -/
theorem generate_search_path_list_spec (fs : FS) (default_file : String)
    (git_root command_line_file : Option String) :
    (generate_search_path_list fs default_file git_root command_line_file).Nodup
    ∧ (generate_search_path_list fs default_file git_root command_line_file).Sublist
        ((searchCandidates fs default_file git_root command_line_file).filterMap
          fs.resolve)
    ∧ (∀ x, x ∈ generate_search_path_list fs default_file git_root command_line_file
        ↔ x ∈ (searchCandidates fs default_file git_root command_line_file).filterMap
            fs.resolve)
    ∧ generate_search_path_list fs default_file git_root command_line_file
        = dedupKeepLast
            ((searchCandidates fs default_file git_root command_line_file).filterMap
              fs.resolve) := by
  rw [generate_eq_dedup, dedupKeepLast_eq_dedup]
  exact ⟨List.nodup_dedup _, List.dedup_sublist _, fun x => List.mem_dedup, rfl⟩

/-! ## find_config_file (file_searcher.py lines 168-203) -/

/-- The scan loop of `find_config_file`: for each path, if it exists return it
resolved (the final unprotected `resolve()` propagates an `OSError`);
otherwise keep scanning; return `None` when the list is exhausted. -/
def findConfigLoop (fs : FS) : List String → Except PyError (Option String)
  | [] => .ok none
  | p :: rest =>
    if fs.pathExists p then
      match fs.resolve p with
      | some r => .ok (some r)
      | none => .error .osError
    else findConfigLoop fs rest

/-- `find_config_file(config_name, git_root, command_line_file, config_dirs)`:
the standard search list, then each `config_dirs` entry joined with
`config_name` (neither resolved nor checked while appending), scanned by
`findConfigLoop`. -/
def find_config_file (fs : FS) (config_name : String)
    (git_root command_line_file : Option String)
    (config_dirs : Option (List String)) : Except PyError (Option String) :=
  let search_paths := generate_search_path_list fs config_name git_root command_line_file
  let search_paths := search_paths
    ++ (match config_dirs with
        | some ds => ds.map fun d => pjoin d config_name
        | none => [])
  findConfigLoop fs search_paths

theorem findConfigLoop_all_absent (fs : FS) (l : List String)
    (h : ∀ p ∈ l, fs.pathExists p = false) : findConfigLoop fs l = .ok none := by
  induction l with
  | nil => rfl
  | cons p rest ih =>
    have hp := h p (List.mem_cons_self p rest)
    simp only [findConfigLoop, hp, Bool.false_eq_true, if_false]
    exact ih fun q hq => h q (List.mem_cons_of_mem p hq)

theorem findConfigLoop_first_hit (fs : FS) (l1 l2 : List String) (p r : String)
    (h1 : ∀ q ∈ l1, fs.pathExists q = false) (hp : fs.pathExists p = true)
    (hr : fs.resolve p = some r) :
    findConfigLoop fs (l1 ++ p :: l2) = .ok (some r) := by
  induction l1 with
  | nil =>
    simp only [List.nil_append, findConfigLoop, hp, if_true, hr]
  | cons q rest ih =>
    have hq := h1 q (List.mem_cons_self q rest)
    rw [List.cons_append]
    simp only [findConfigLoop, hq, Bool.false_eq_true, if_false]
    exact ih fun x hx => h1 x (List.mem_cons_of_mem q hx)

/-- C2: `find_config_file` builds its candidate list as the standard search
list followed by each `config_dirs` entry joined with `config_name`; it walks
that list in the order returned (lowest-priority first) and returns the first
existing candidate resolved, or `None` when no candidate exists — so an
existing early (low-priority) file is returned even when a higher-priority
candidate appears later in the list. -/
theorem find_config_file_spec (fs : FS) (config_name : String)
    (git_root command_line_file : Option String)
    (config_dirs : Option (List String)) :
    (find_config_file fs config_name git_root command_line_file config_dirs
      = findConfigLoop fs
          (generate_search_path_list fs config_name git_root command_line_file
            ++ (config_dirs.getD []).map fun d => pjoin d config_name))
  ∧ ((∀ p ∈ generate_search_path_list fs config_name git_root command_line_file
        ++ (config_dirs.getD []).map (fun d => pjoin d config_name),
        fs.pathExists p = false) →
      find_config_file fs config_name git_root command_line_file config_dirs
        = .ok none)
  ∧ (∀ l1 p l2 r,
      generate_search_path_list fs config_name git_root command_line_file
        ++ (config_dirs.getD []).map (fun d => pjoin d config_name)
        = l1 ++ p :: l2 →
      (∀ q ∈ l1, fs.pathExists q = false) → fs.pathExists p = true →
      fs.resolve p = some r →
      find_config_file fs config_name git_root command_line_file config_dirs
        = .ok (some r)) := by
  have hc : find_config_file fs config_name git_root command_line_file config_dirs
      = findConfigLoop fs
          (generate_search_path_list fs config_name git_root command_line_file
            ++ (config_dirs.getD []).map fun d => pjoin d config_name) := by
    cases config_dirs <;> rfl
  refine ⟨hc, fun h => ?_, fun l1 p l2 r hsplit h1 hp hr => ?_⟩
  · rw [hc]; exact findConfigLoop_all_absent fs _ h
  · rw [hc, hsplit]; exact findConfigLoop_first_hit fs l1 l2 p r h1 hp hr

/-- A concrete filesystem for witnesses: resolution is the identity and only
the path `"cfg"` exists. -/
def wfsC2 : FS where
  home := "h"
  cwd := "c"
  resolve := fun s => some s
  pathExists := fun s => s == "cfg"

/-- Witness for C2 at a concrete input: candidates are
`["h/cfg", "cfg", "d/cfg"]`, the head does not exist, `"cfg"` does, and the
scan returns it resolved. -/
theorem find_config_file_spec_witness :
    find_config_file wfsC2 "cfg" none none (some ["d"]) = .ok (some "cfg") := by
  have hsplit : generate_search_path_list wfsC2 "cfg" none none
      ++ ((some ["d"]).getD []).map (fun d => pjoin d "cfg")
      = ["h/cfg"] ++ "cfg" :: ["d/cfg"] := by decide
  exact (find_config_file_spec wfsC2 "cfg" none none (some ["d"])).2.2
    ["h/cfg"] "cfg" ["d/cfg"] "cfg" hsplit (by decide) (by decide) (by decide)

/-! ## resolve_file_path (file_searcher.py lines 61-165) -/

/-- The location list tried by the `auto` strategy, in source order:
git-root, home, git-root/.aider, home/.aider, git-root/.cecli, home/.cecli,
cwd, then the `search_dirs` entries (git-root candidates only when `git_root`
is truthy). -/
def autoLocations (fs : FS) (filename : String) (git_root : Option String)
    (search_dirs : Option (List String)) : List String :=
  (match git_root with
    | some g => [pjoin g filename]
    | none => [])
  ++ [pjoin fs.home filename]
  ++ (match git_root with
    | some g => [pjoin (pjoin g ".aider") filename]
    | none => [])
  ++ [pjoin (pjoin fs.home ".aider") filename]
  ++ (match git_root with
    | some g => [pjoin (pjoin g ".cecli") filename]
    | none => [])
  ++ [pjoin (pjoin fs.home ".cecli") filename]
  ++ [pjoin fs.cwd filename]
  ++ (match search_dirs with
    | some ds => ds.map fun d => pjoin d filename
    | none => [])

/-- The `auto` scan: resolve each location inside `try` (an `OSError` skips
it, `continue`); return the first resolved path that exists; `None` when the
list is exhausted. -/
def autoLoop (fs : FS) : List String → Option String
  | [] => none
  | loc :: rest =>
    match fs.resolve loc with
    | some r => if fs.pathExists r then some r else autoLoop fs rest
    | none => autoLoop fs rest

/-- The shared body of the `aider` and `cecli` branches, parameterized by the
dot-directory (`".aider"` or `".cecli"`): try `{git_root}/<dotdir>/filename`
when `git_root` is truthy, swallowing an `OSError`, and return it only when it
exists; otherwise fall back to `home/<dotdir>/filename` resolved
unconditionally (the fallback `resolve()` is unprotected, so its `OSError`
propagates). -/
def namespaceResolve (fs : FS) (filename : String) (git_root : Option String)
    (dotdir : String) : Except PyError (Option String) :=
  let fallback : Except PyError (Option String) :=
    match fs.resolve (pjoin (pjoin fs.home dotdir) filename) with
    | some r => .ok (some r)
    | none => .error .osError
  match git_root with
  | some g =>
    match fs.resolve (pjoin (pjoin g dotdir) filename) with
    | some r => if fs.pathExists r then .ok (some r) else fallback
    | none => fallback
  | none => fallback

/-- `resolve_file_path(filename, relative_to, git_root, search_dirs)`: the
`if`/`elif` chain on `relative_to` from the source. -/
def resolve_file_path (fs : FS) (filename : String) (relative_to : String)
    (git_root : Option String) (search_dirs : Option (List String)) :
    Except PyError (Option String) :=
  if relative_to = "auto" then
    .ok (autoLoop fs (autoLocations fs filename git_root search_dirs))
  else if relative_to = "git" then
    match git_root with
    | none => .error (.valueError "git_root is required when relative_to='git'")
    | some g =>
      match fs.resolve (pjoin g filename) with
      | some r => .ok (some r)
      | none => .error .osError
  else if relative_to = "home" then
    match fs.resolve (pjoin fs.home filename) with
    | some r => .ok (some r)
    | none => .error .osError
  else if relative_to = "cwd" then
    match fs.resolve (pjoin fs.cwd filename) with
    | some r => .ok (some r)
    | none => .error .osError
  else if relative_to = "aider" then
    namespaceResolve fs filename git_root ".aider"
  else if relative_to = "cecli" then
    namespaceResolve fs filename git_root ".cecli"
  else
    .error (.valueError ("Invalid relative_to value: " ++ relative_to))

theorem autoLoop_all_miss (fs : FS) (l : List String)
    (h : ∀ loc ∈ l, ∀ r, fs.resolve loc = some r → fs.pathExists r = false) :
    autoLoop fs l = none := by
  induction l with
  | nil => rfl
  | cons loc rest ih =>
    have hrest := ih fun q hq => h q (List.mem_cons_of_mem loc hq)
    cases hres : fs.resolve loc with
    | none => simpa [autoLoop, hres] using hrest
    | some r =>
      have := h loc (List.mem_cons_self loc rest) r hres
      simp [autoLoop, hres, this, hrest]

theorem autoLoop_first_hit (fs : FS) (l1 l2 : List String) (p r : String)
    (h1 : ∀ q ∈ l1, ∀ r2, fs.resolve q = some r2 → fs.pathExists r2 = false)
    (hp : fs.resolve p = some r) (hr : fs.pathExists r = true) :
    autoLoop fs (l1 ++ p :: l2) = some r := by
  induction l1 with
  | nil => simp [autoLoop, hp, hr]
  | cons q rest ih =>
    have hrest := ih fun x hx => h1 x (List.mem_cons_of_mem q hx)
    rw [List.cons_append]
    cases hres : fs.resolve q with
    | none => simpa [autoLoop, hres] using hrest
    | some r2 =>
      have := h1 q (List.mem_cons_self q rest) r2 hres
      simp [autoLoop, hres, this, hrest]

/-- C5: with `relative_to = "auto"`, `resolve_file_path` scans exactly the
locations git-root/filename, home/filename, git-root/.aider/filename,
home/.aider/filename, git-root/.cecli/filename, home/.cecli/filename,
cwd/filename, then each `search_dirs` entry joined with filename (git-root
candidates only when a git root is given); a candidate that fails to resolve
is skipped; the first candidate that exists after resolution is returned; and
when no candidate exists the result is `None` (no error). -/
theorem resolve_file_path_auto_spec (fs : FS) (filename : String)
    (git_root : Option String) (search_dirs : Option (List String)) :
    (resolve_file_path fs filename "auto" git_root search_dirs
      = .ok (autoLoop fs (autoLocations fs filename git_root search_dirs)))
  ∧ (autoLocations fs filename git_root search_dirs
      = (git_root.elim [] fun g => [pjoin g filename])
        ++ [pjoin fs.home filename]
        ++ (git_root.elim [] fun g => [pjoin (pjoin g ".aider") filename])
        ++ [pjoin (pjoin fs.home ".aider") filename]
        ++ (git_root.elim [] fun g => [pjoin (pjoin g ".cecli") filename])
        ++ [pjoin (pjoin fs.home ".cecli") filename]
        ++ [pjoin fs.cwd filename]
        ++ (search_dirs.elim [] fun ds => ds.map fun d => pjoin d filename))
  ∧ ((∀ loc ∈ autoLocations fs filename git_root search_dirs,
        ∀ r, fs.resolve loc = some r → fs.pathExists r = false) →
      resolve_file_path fs filename "auto" git_root search_dirs = .ok none)
  ∧ (∀ l1 p l2 r,
      autoLocations fs filename git_root search_dirs = l1 ++ p :: l2 →
      (∀ q ∈ l1, ∀ r2, fs.resolve q = some r2 → fs.pathExists r2 = false) →
      fs.resolve p = some r → fs.pathExists r = true →
      resolve_file_path fs filename "auto" git_root search_dirs
        = .ok (some r)) := by
  have hbase : resolve_file_path fs filename "auto" git_root search_dirs
      = .ok (autoLoop fs (autoLocations fs filename git_root search_dirs)) := rfl
  refine ⟨hbase, ?_, fun h => ?_, fun l1 p l2 r hsplit h1 hp hr => ?_⟩
  · cases git_root <;> cases search_dirs <;> rfl
  · rw [hbase, autoLoop_all_miss fs _ h]
  · rw [hbase, hsplit, autoLoop_first_hit fs l1 l2 p r h1 hp hr]

/-- A concrete filesystem for the C5 witness: everything resolves to itself
except `"g/f"` (an `OSError`); only `"h/.aider/f"` exists. -/
def wfsC5 : FS where
  home := "h"
  cwd := "c"
  resolve := fun s => if s == "g/f" then none else some s
  pathExists := fun s => s == "h/.aider/f"

/-- Witness for C5 at a concrete input: the git-root candidate fails to
resolve and is skipped, `h/f` resolves but does not exist, `g/.aider/f`
resolves but does not exist, and `h/.aider/f` is returned. -/
theorem resolve_file_path_auto_spec_witness :
    resolve_file_path wfsC5 "f" "auto" (some "g") (some ["d"])
      = .ok (some "h/.aider/f") := by
  have hsplit : autoLocations wfsC5 "f" (some "g") (some ["d"])
      = ["g/f", "h/f", "g/.aider/f"] ++ "h/.aider/f"
          :: ["g/.cecli/f", "h/.cecli/f", "c/f", "d/f"] := by decide
  exact (resolve_file_path_auto_spec wfsC5 "f" (some "g") (some ["d"])).2.2.2
    ["g/f", "h/f", "g/.aider/f"] "h/.aider/f"
    ["g/.cecli/f", "h/.cecli/f", "c/f", "d/f"] "h/.aider/f"
    hsplit (by decide) (by decide) (by decide)

/-- C6: `resolve_file_path` raises exactly in the two caller-misuse cases:
`relative_to = "git"` without a git root raises the configuration
`ValueError`, while with a git root it returns `git_root/filename` resolved
without any existence check; and a `relative_to` outside the six known
strategies raises a `ValueError` whose message names the bad value. -/
theorem resolve_file_path_error_spec (fs : FS) (filename : String)
    (search_dirs : Option (List String)) :
    (resolve_file_path fs filename "git" none search_dirs
      = .error (.valueError "git_root is required when relative_to='git'"))
  ∧ (∀ g, resolve_file_path fs filename "git" (some g) search_dirs
      = match fs.resolve (pjoin g filename) with
        | some r => .ok (some r)
        | none => .error .osError)
  ∧ (∀ relative_to git_root,
      relative_to ≠ "auto" → relative_to ≠ "git" → relative_to ≠ "home" →
      relative_to ≠ "cwd" → relative_to ≠ "aider" → relative_to ≠ "cecli" →
      resolve_file_path fs filename relative_to git_root search_dirs
        = .error (.valueError ("Invalid relative_to value: " ++ relative_to))) := by
  refine ⟨rfl, fun g => rfl, fun rt gr h1 h2 h3 h4 h5 h6 => ?_⟩
  simp only [resolve_file_path, if_neg h1, if_neg h2, if_neg h3, if_neg h4,
    if_neg h5, if_neg h6]

/-- Witness for C6 at a concrete input: the unknown strategy `"bogus"` raises
the invalid-argument `ValueError` carrying the bad value. -/
theorem resolve_file_path_error_spec_witness :
    resolve_file_path wfsC2 "f" "bogus" none none
      = .error (.valueError ("Invalid relative_to value: " ++ "bogus")) := by
  exact (resolve_file_path_error_spec wfsC2 "f" none).2.2 "bogus" none
    (by decide) (by decide) (by decide) (by decide) (by decide) (by decide)

/-- C7: with `relative_to = "aider"` (namespace `.aider`) or `"cecli"`
(namespace `.cecli`), `resolve_file_path` returns
`{git_root}/.<namespace>/filename` resolved when a git root is given and that
resolved path exists; in every other case — no git root, the git-root
candidate fails to resolve, or it resolves to a path that does not exist — it
returns `home/.<namespace>/filename` resolved, without checking that the
fallback exists. -/
theorem resolve_file_path_namespace_spec (fs : FS) (filename : String)
    (search_dirs : Option (List String)) :
    ∀ relative_to dotdir,
      ((relative_to, dotdir) = ("aider", ".aider")
        ∨ (relative_to, dotdir) = ("cecli", ".cecli")) →
      (∀ g r, fs.resolve (pjoin (pjoin g dotdir) filename) = some r →
        fs.pathExists r = true →
        resolve_file_path fs filename relative_to (some g) search_dirs
          = .ok (some r))
    ∧ (resolve_file_path fs filename relative_to none search_dirs
        = match fs.resolve (pjoin (pjoin fs.home dotdir) filename) with
          | some r => .ok (some r)
          | none => .error .osError)
    ∧ (∀ g, (fs.resolve (pjoin (pjoin g dotdir) filename) = none
          ∨ ∃ r, fs.resolve (pjoin (pjoin g dotdir) filename) = some r
              ∧ fs.pathExists r = false) →
        resolve_file_path fs filename relative_to (some g) search_dirs
          = match fs.resolve (pjoin (pjoin fs.home dotdir) filename) with
            | some r => .ok (some r)
            | none => .error .osError) := by
  intro rt dd hcase
  have hrw : resolve_file_path fs filename rt
      = fun gr _ => namespaceResolve fs filename gr dd := by
    rcases hcase with h | h <;>
      · obtain ⟨rfl, rfl⟩ := Prod.mk.inj h
        rfl
  refine ⟨fun g r hres hex => ?_, ?_, fun g hmiss => ?_⟩
  · rw [hrw]
    simp only [namespaceResolve, hres, hex, if_true]
  · rw [hrw]
    rfl
  · rw [hrw]
    rcases hmiss with hnone | ⟨r, hres, hex⟩
    · simp only [namespaceResolve, hnone]
    · simp only [namespaceResolve, hres, hex, Bool.false_eq_true, if_false]

/-- A concrete filesystem for the C7 witness: identity resolution, nothing
exists. -/
def wfsC7 : FS where
  home := "h"
  cwd := "c"
  resolve := fun s => some s
  pathExists := fun _ => false

/-- Witness for C7 at a concrete input: with a git root whose `.aider`
candidate resolves but does not exist, the `aider` strategy returns
`h/.aider/f` resolved even though it does not exist either. -/
theorem resolve_file_path_namespace_spec_witness :
    resolve_file_path wfsC7 "f" "aider" (some "g") none
      = .ok (some "h/.aider/f") := by
  have h := (resolve_file_path_namespace_spec wfsC7 "f" none "aider" ".aider"
    (Or.inl rfl)).2.2 "g" (Or.inr ⟨"g/.aider/f", rfl, rfl⟩)
  simpa using h

/-! ## SkillsManager

The skills module itself is not in the repository snapshot; only
`tests/basic/test_skills.py` is. The definitions below are modelled from the
spec (sections 3, 4.3, 4.4 and 6), with the status strings and the agentic
token pinned by the test's exact assertions. -/

/-- Modelled from the spec: the session collaborator; load/remove only read
`edit_format`. -/
structure Coder where
  edit_format : String

/-- Modelled from the spec: a skill's metadata, both fields required. -/
structure SkillMetadata where
  name : String
  description : String

/-- Modelled from the spec: a parsed skill — metadata, instructions, and the
three non-recursive resource mappings (base filename to absolute path). -/
structure SkillContent where
  metadata : SkillMetadata
  instructions : String
  references : List (String × String)
  scripts : List (String × String)
  assets : List (String × String)

/-- Modelled from the spec: the filesystem as the skill lookup sees it —
whether `{directory}/{name}/SKILL.md` exists, and what parsing it yields
(`none` is a parse failure). -/
structure SkillStore where
  hasSkillMd : String → String → Bool
  parse : String → String → Option SkillContent

/-- Modelled from the spec: the SkillsManager state; `loaded_skills` is the
only mutable field. -/
structure SkillsManager where
  directory_paths : List String
  include_list : Option (Finset String)
  exclude_list : Finset String
  git_root : Option String
  coder : Option Coder
  loaded_skills : Finset String

/-- The agentic-mode token (`edit_format == "agent"` in the tests). -/
def agentMode : String := "agent"

def connectionErrorMsg : String :=
  "Error: Skills manager not connected to a coder instance."

def loadModeErrorMsg : String :=
  "Error: Skill loading is only available in agent mode."

def removeModeErrorMsg : String :=
  "Error: Skill removal is only available in agent mode."

def nameRequiredMsg : String := "Error: Skill name is required."

def alreadyLoadedMsg (name : String) : String :=
  "Skill '" ++ name ++ "' is already loaded."

def notFoundMsg (name : String) : String :=
  "Error: Skill '" ++ name ++ "' not found in configured directories."

def loadedOkMsg (name : String) : String :=
  "Skill '" ++ name ++ "' loaded successfully."

def notLoadedMsg (name : String) : String :=
  "Skill '" ++ name ++ "' is not loaded."

def removedOkMsg (name : String) : String :=
  "Skill '" ++ name ++ "' removed successfully."

/-- Modelled from the spec (4.3): scan the configured directories in order;
the first directory containing `{directory}/{name}/SKILL.md` is used; parse
its manifest. A pure query: no manager state is read besides
`directory_paths`, and none is written. -/
def get_skill_content (st : SkillStore) (m : SkillsManager) (name : String) :
    Option SkillContent :=
  (m.directory_paths.find? fun d => st.hasSkillMd d name).bind
    fun d => st.parse d name

/-- Modelled from the spec: `get_skill_content` as a state transformer, to
state the frame property — it returns the content and the manager it was
given. -/
def get_skill_content_call (st : SkillStore) (m : SkillsManager)
    (name : String) : SkillsManager × Option SkillContent :=
  (m, get_skill_content st m name)

/-- Any number of successive `get_skill_content` calls, threading the manager
state. -/
def get_skill_content_calls (st : SkillStore) (m : SkillsManager) :
    List String → SkillsManager
  | [] => m
  | n :: ns => get_skill_content_calls st (get_skill_content_call st m n).1 ns

/-- Modelled from the spec (4.4): `load_skill` — connection gate, mode gate,
empty-name gate, already-loaded gate, then parse; only the success branch
mutates `loaded_skills`. -/
def load_skill (st : SkillStore) (m : SkillsManager) (name : String) :
    SkillsManager × String :=
  match m.coder with
  | none => (m, connectionErrorMsg)
  | some c =>
    if c.edit_format ≠ agentMode then (m, loadModeErrorMsg)
    else if name = "" then (m, nameRequiredMsg)
    else if name ∈ m.loaded_skills then (m, alreadyLoadedMsg name)
    else
      match get_skill_content st m name with
      | none => (m, notFoundMsg name)
      | some _ =>
        ({ m with loaded_skills := insert name m.loaded_skills },
          loadedOkMsg name)

/-- Modelled from the spec (4.4): `remove_skill` — connection gate, mode gate,
empty-name gate, not-loaded gate, then removal. -/
def remove_skill (m : SkillsManager) (name : String) :
    SkillsManager × String :=
  match m.coder with
  | none => (m, connectionErrorMsg)
  | some c =>
    if c.edit_format ≠ agentMode then (m, removeModeErrorMsg)
    else if name = "" then (m, nameRequiredMsg)
    else if name ∉ m.loaded_skills then (m, notLoadedMsg name)
    else ({ m with loaded_skills := m.loaded_skills.erase name },
      removedOkMsg name)

/-- Modelled from the spec and `test_skills_manager_initialization`: the
constructor — `include_list` normalized to a set of names or kept absent,
`exclude_list` defaulting to the empty set, `loaded_skills` starting empty. -/
def SkillsManager.init (directory_paths : List String)
    (include_list : Option (List String)) (exclude_list : Option (List String))
    (git_root : Option String) (coder : Option Coder) : SkillsManager :=
  { directory_paths := directory_paths
    include_list := include_list.map fun l => l.toFinset
    exclude_list := (exclude_list.getD []).toFinset
    git_root := git_root
    coder := coder
    loaded_skills := ∅ }

/-- C3: `load_skill` checks its gates in order — connection, mode, empty name,
already loaded, parse — returning the corresponding status string at the
first failing check with the manager unchanged; a successful parse adds the
name to `loaded_skills` and reports success. -/
theorem load_skill_spec (st : SkillStore) (m : SkillsManager) (name : String) :
    (m.coder = none → load_skill st m name = (m, connectionErrorMsg))
  ∧ (∀ c, m.coder = some c → c.edit_format ≠ agentMode →
      load_skill st m name = (m, loadModeErrorMsg))
  ∧ (∀ c, m.coder = some c → c.edit_format = agentMode → name = "" →
      load_skill st m name = (m, nameRequiredMsg))
  ∧ (∀ c, m.coder = some c → c.edit_format = agentMode → name ≠ "" →
      name ∈ m.loaded_skills →
      load_skill st m name = (m, alreadyLoadedMsg name))
  ∧ (∀ c, m.coder = some c → c.edit_format = agentMode → name ≠ "" →
      name ∉ m.loaded_skills → get_skill_content st m name = none →
      load_skill st m name = (m, notFoundMsg name))
  ∧ (∀ c sc, m.coder = some c → c.edit_format = agentMode → name ≠ "" →
      name ∉ m.loaded_skills → get_skill_content st m name = some sc →
      load_skill st m name
        = ({ m with loaded_skills := insert name m.loaded_skills },
            loadedOkMsg name)) := by
  refine ⟨fun h => ?_, fun c hc hm => ?_, fun c hc hm hn => ?_,
    fun c hc hm hn hl => ?_, fun c hc hm hn hl hp => ?_,
    fun c sc hc hm hn hl hp => ?_⟩
  · simp only [load_skill, h]
  · simp only [load_skill, hc, if_pos hm]
  · have hmode : ¬c.edit_format ≠ agentMode := fun h2 => h2 hm
    simp only [load_skill, hc, if_neg hmode, if_pos hn]
  · have hmode : ¬c.edit_format ≠ agentMode := fun h2 => h2 hm
    simp only [load_skill, hc, if_neg hmode, if_neg hn, if_pos hl]
  · have hmode : ¬c.edit_format ≠ agentMode := fun h2 => h2 hm
    simp only [load_skill, hc, if_neg hmode, if_neg hn, if_neg hl, hp]
  · have hmode : ¬c.edit_format ≠ agentMode := fun h2 => h2 hm
    simp only [load_skill, hc, if_neg hmode, if_neg hn, if_neg hl, hp]

/-- A concrete skill store for witnesses: the single directory `"D"` contains
exactly the skill `"sk"`, whose parse succeeds with empty content. -/
def wstore : SkillStore where
  hasSkillMd := fun d n => d == "D" && n == "sk"
  parse := fun d n =>
    if d == "D" && n == "sk" then
      some ⟨⟨"sk", "a skill"⟩, "body", [], [], []⟩
    else none

/-- A concrete manager for witnesses: one directory `"D"`, an agentic coder,
nothing loaded. -/
def wmanager : SkillsManager :=
  SkillsManager.init ["D"] none none none (some ⟨"agent"⟩)

/-- Witness for C3 at a concrete input: loading `"sk"` on a fresh agentic
manager succeeds and adds the name. -/
theorem load_skill_spec_witness :
    load_skill wstore wmanager "sk"
      = ({ wmanager with loaded_skills := insert "sk" wmanager.loaded_skills },
          loadedOkMsg "sk") := by
  exact (load_skill_spec wstore wmanager "sk").2.2.2.2.2 ⟨"agent"⟩
    ⟨⟨"sk", "a skill"⟩, "body", [], [], []⟩ rfl rfl (by decide) (by decide) rfl

/-- C4: on a manager with an attached agentic coder and a non-empty name,
`remove_skill` of an unloaded name reports "not loaded" and changes nothing;
of a loaded name it removes exactly that name (membership afterwards is
membership before minus the name) and reports success; and removing the same
name again reports "not loaded". -/
theorem remove_skill_spec (m : SkillsManager) (name : String) (c : Coder)
    (hc : m.coder = some c) (hm : c.edit_format = agentMode)
    (hn : name ≠ "") :
    (name ∉ m.loaded_skills → remove_skill m name = (m, notLoadedMsg name))
  ∧ (name ∈ m.loaded_skills →
      remove_skill m name
        = ({ m with loaded_skills := m.loaded_skills.erase name },
            removedOkMsg name)
      ∧ (∀ x, x ∈ m.loaded_skills.erase name
          ↔ x ∈ m.loaded_skills ∧ x ≠ name)
      ∧ remove_skill { m with loaded_skills := m.loaded_skills.erase name }
          name
        = ({ m with loaded_skills := m.loaded_skills.erase name },
            notLoadedMsg name)) := by
  have hmode : ¬c.edit_format ≠ agentMode := fun h2 => h2 hm
  refine ⟨fun hl => ?_, fun hl => ⟨?_, fun x => ?_, ?_⟩⟩
  · simp only [remove_skill, hc, if_neg hmode, if_neg hn, if_pos hl]
  · have hnl : ¬name ∉ m.loaded_skills := fun h2 => h2 hl
    simp only [remove_skill, hc, if_neg hmode, if_neg hn, if_neg hnl]
  · rw [Finset.mem_erase]
    tauto
  · have hgone : name ∉ m.loaded_skills.erase name :=
      Finset.not_mem_erase name m.loaded_skills
    simp only [remove_skill, hc, if_neg hmode, if_neg hn, if_pos hgone]

/-- Witness for C4 at a concrete input: removing `"sk"` from a manager that
has it loaded succeeds and empties the set. -/
theorem remove_skill_spec_witness :
    remove_skill { wmanager with loaded_skills := {"sk"} } "sk"
      = ({ wmanager with
            loaded_skills := ({"sk"} : Finset String).erase "sk" },
          removedOkMsg "sk") := by
  exact ((remove_skill_spec { wmanager with loaded_skills := {"sk"} } "sk"
    ⟨"agent"⟩ rfl rfl (by decide)).2 (by decide)).1

/-- C8: `get_skill_content` leaves the manager — `loaded_skills` included —
unchanged, whether it returns content or nothing, over any number of calls. -/
theorem get_skill_content_frame (st : SkillStore) (m : SkillsManager)
    (names : List String) :
    get_skill_content_calls st m names = m
    ∧ (∀ name, (get_skill_content_call st m name).1 = m) := by
  constructor
  · induction names with
    | nil => rfl
    | cons n ns ih => exact ih
  · intro name; rfl

theorem find?_first_true (p : String → Bool) (l1 l2 : List String) (d : String)
    (h1 : ∀ e ∈ l1, p e = false) (hd : p d = true) :
    (l1 ++ d :: l2).find? p = some d := by
  induction l1 with
  | nil => simp [List.find?, hd]
  | cons e rest ih =>
    have he := h1 e (List.mem_cons_self e rest)
    rw [List.cons_append, List.find?_cons_of_neg _ (by simp [he])]
    exact ih fun q hq => h1 q (List.mem_cons_of_mem e hq)

/-- C9: the skill lookup scans `directory_paths` in configured order and uses
the first directory containing `{directory}/{name}/SKILL.md`; when two
configured directories both contain the skill, the earlier-configured one is
the one parsed and returned. -/
theorem skill_lookup_precedence (st : SkillStore) (m : SkillsManager)
    (name : String) :
    (get_skill_content st m name
      = (m.directory_paths.find? fun d => st.hasSkillMd d name).bind
          fun d => st.parse d name)
  ∧ (∀ l1 d1 l2 d2 l3,
      m.directory_paths = l1 ++ d1 :: (l2 ++ d2 :: l3) →
      (∀ e ∈ l1, st.hasSkillMd e name = false) →
      st.hasSkillMd d1 name = true →
      get_skill_content st m name = st.parse d1 name) := by
  refine ⟨rfl, fun l1 d1 l2 d2 l3 hsplit h1 hd1 => ?_⟩
  have hfind : (m.directory_paths.find? fun d => st.hasSkillMd d name)
      = some d1 := by
    rw [hsplit]
    exact find?_first_true _ l1 _ d1 h1 hd1
  simp only [get_skill_content, hfind, Option.some_bind]

/-- A skill store where two directories contain the same skill name with
different descriptions, for the C9 witness. -/
def wstore2 : SkillStore where
  hasSkillMd := fun d n => (d == "D1" || d == "D2") && n == "sk"
  parse := fun d n =>
    if d == "D1" && n == "sk" then
      some ⟨⟨"sk", "from D1"⟩, "body1", [], [], []⟩
    else if d == "D2" && n == "sk" then
      some ⟨⟨"sk", "from D2"⟩, "body2", [], [], []⟩
    else none

/-- Witness for C9 at a concrete input: with directories `["D1", "D2"]` both
containing `"sk"`, the content of `"D1"` is returned. -/
theorem skill_lookup_precedence_witness :
    get_skill_content wstore2
        (SkillsManager.init ["D1", "D2"] none none none none) "sk"
      = some ⟨⟨"sk", "from D1"⟩, "body1", [], [], []⟩ := by
  have h := (skill_lookup_precedence wstore2
    (SkillsManager.init ["D1", "D2"] none none none none) "sk").2
    [] "D1" [] "D2" [] rfl (by intro e he; cases he) rfl
  rw [h]
  rfl

/-- C10: every freshly constructed manager starts with `loaded_skills` empty,
for all constructor arguments; `include_list` is normalized to a set of names
(or stays absent) and `exclude_list` defaults to the empty set; and no
operation but a successful `load_skill` ever grows `loaded_skills` — a load
that does not report success leaves the manager unchanged, a removal only
shrinks the set, and queries do not touch it. -/
theorem skills_manager_init_spec (dp : List String)
    (il el : Option (List String)) (gr : Option String) (cd : Option Coder) :
    ((SkillsManager.init dp il el gr cd).loaded_skills = ∅)
  ∧ ((SkillsManager.init dp il el gr cd).include_list
      = il.map fun l => l.toFinset)
  ∧ (il = none → (SkillsManager.init dp il el gr cd).include_list = none)
  ∧ (el = none → (SkillsManager.init dp il el gr cd).exclude_list = ∅)
  ∧ (∀ st m n, (load_skill st m n).2 ≠ loadedOkMsg n →
      (load_skill st m n).1 = m)
  ∧ (∀ m n, (remove_skill m n).1.loaded_skills ⊆ m.loaded_skills)
  ∧ (∀ st m ns, get_skill_content_calls st m ns = m) := by
  refine ⟨rfl, rfl, fun h => ?_, fun h => ?_, fun st m n hfail => ?_,
    fun m n => ?_, fun st m ns => ?_⟩
  · subst h; rfl
  · subst h; rfl
  · unfold load_skill at hfail ⊢
    cases hc : m.coder with
    | none => simp only [hc]
    | some c =>
      simp only [hc] at hfail ⊢
      by_cases hm : c.edit_format ≠ agentMode
      · simp only [if_pos hm]
      · simp only [if_neg hm] at hfail ⊢
        by_cases hn : n = ""
        · simp only [if_pos hn]
        · simp only [if_neg hn] at hfail ⊢
          by_cases hl : n ∈ m.loaded_skills
          · simp only [if_pos hl]
          · simp only [if_neg hl] at hfail ⊢
            cases hp : get_skill_content st m n with
            | none => simp only [hp]
            | some sc =>
              simp only [hp] at hfail
              exact absurd rfl hfail
  · unfold remove_skill
    cases hc : m.coder with
    | none => exact fun x hx => hx
    | some c =>
      by_cases hm : c.edit_format ≠ agentMode
      · simp only [if_pos hm]; exact fun x hx => hx
      · simp only [if_neg hm]
        by_cases hn : n = ""
        · simp only [if_pos hn]; exact fun x hx => hx
        · simp only [if_neg hn]
          by_cases hl : n ∉ m.loaded_skills
          · simp only [if_pos hl]; exact fun x hx => hx
          · simp only [if_neg hl]
            exact Finset.erase_subset n m.loaded_skills
  · induction ns with
    | nil => rfl
    | cons x xs ih => exact ih

/-- Witness for C10 at a concrete input: a fresh manager with arguments as in
the test starts with an empty loaded set, a normalized include list and a
defaulted exclude list, and a failing load leaves a manager unchanged. -/
theorem skills_manager_init_spec_witness :
    (SkillsManager.init ["D"] none none none none).loaded_skills = ∅
    ∧ (SkillsManager.init ["D"] none none none none).include_list = none
    ∧ (SkillsManager.init ["D"] none none none none).exclude_list = ∅
    ∧ (load_skill wstore wmanager "missing").1 = wmanager := by
  have h := skills_manager_init_spec ["D"] none none none none
  exact ⟨h.1, h.2.2.1 rfl, h.2.2.2.1 rfl,
    (skills_manager_init_spec [] none none none none).2.2.2.2.1 wstore
      wmanager "missing" (by decide)⟩
